import Mathlib

/-!
Verification of the Movie Explorer client request/cache/cancellation layer.

This file gives a shallow embedding of the request-coordination core of the
Movie Explorer browser client (`src/main.js`, with constants from
`src/config.js`) and settles the specification claims about it.

The embedding covers:
* the persisted profile mutators `addToHistory` (main.js:1244-1252) and
  `rateMovie` (main.js:1254-1270);
* the TTL-checked request caches (main.js:51-53, lookup pattern at
  main.js:899 and main.js:1070);
* the cache-key constructions of the suggestion channel (main.js:897) and the
  search channel (main.js:1051-1067, via the `URLSearchParams` serializer);
* `getImmediateSuggestions` (main.js:858-876) and `getMoviePoster`
  (main.js:426-451);
* the abort-then-install controller pattern shared by all three request
  channels (main.js:904-908, 1038-1045, 1088-1091, 1136-1138);
* a small-step interleaving model of the event-loop executions of
  `getSearchSuggestions` (main.js:878-938) and `searchMovies`
  (main.js:1031-1117), with cooperative suspension points at every `await`
  and AbortController-style cancellation;
* the keystroke debounce state machine of the search input listener
  (main.js:1305-1323).

Machine integers do not occur in the relevant code paths; JS numbers used
here (ids, timestamps, lengths) stay far below 2^53 and are modelled as
`Nat`/`Int`.
-/

/-! ## Basic string helpers (JS `includes`, `startsWith`, `toLowerCase`) -/

/-- The test `begMatch pat s` is true when the character list `s` starts with `pat`
(JS `String.prototype.startsWith` on the underlying characters). -/
def begMatch : List Char → List Char → Bool
  | [], _ => true
  | _ :: _, [] => false
  | p :: ps, c :: cs => p == c && begMatch ps cs

/-- The test `subMatch pat s` is true when `pat` occurs contiguously inside `s`
(JS `String.prototype.includes` on the underlying characters). -/
def subMatch (pat : List Char) : List Char → Bool
  | [] => begMatch pat []
  | c :: cs => begMatch pat (c :: cs) || subMatch pat cs

/-- JS `s.startsWith(pat)`. -/
def strStarts (s pat : String) : Bool := begMatch pat.data s.data

/-- JS `s.includes(pat)`. -/
def strHas (s pat : String) : Bool := subMatch pat.data s.data

/-- JS `s.trim()` (over the ASCII whitespace occurring in this client). -/
def jsTrim (s : String) : String :=
  String.mk
    (((s.data.dropWhile Char.isWhitespace).reverse.dropWhile
        Char.isWhitespace).reverse)

/-- JS `s.toLowerCase()` (character-wise, exact for the ASCII titles and
queries involved). -/
def lowerStr (s : String) : String := String.mk (s.data.map Char.toLower)

/-! ## Movie summaries

Only the fields used by the coordination layer are modelled: `id` is the
sole identity key (spec section 3), and `title` is what the local
suggestion list matches on. -/

/-- A movie summary as used by the coordination core. -/
structure Movie where
  id : Nat
  title : String
deriving DecidableEq, Repr

/-! ## C3: history list (`addToHistory`, main.js:1244-1252)

```js
function addToHistory(movieId) {
    if (!userProfile.history.includes(movieId)) {
        userProfile.history.unshift(movieId);
        if (userProfile.history.length > 100) {
            userProfile.history = userProfile.history.slice(0, 100);
        }
        saveUserProfile();
    }
}
```
`unshift` followed by `slice(0, 100)` (applied only when the length exceeds
100, where it agrees with an unconditional `take 100`). -/

/-- The function `addToHistory` from main.js:1244-1252, as a function on the history
list. -/
def addToHistory (history : List Nat) (movieId : Nat) : List Nat :=
  if movieId ∈ history then history
  else (movieId :: history).take 100

/-! ## C4: rating toggles (`rateMovie`, main.js:1254-1270)

```js
function rateMovie(movieId, liked) {
    if (liked) {
        if (!userProfile.liked_movies.includes(movieId)) {
            userProfile.liked_movies.push(movieId);
        }
        userProfile.disliked_movies = userProfile.disliked_movies.filter(id => id !== movieId);
    } else { ... symmetric ... }
    saveUserProfile();
    loadPersonalizedRecommendations();
}
```
-/

/-- The function `rateMovie` from main.js:1254-1270, acting on the pair
(liked_movies, disliked_movies). JS `push` appends at the end. -/
def rateMovie (liked disliked : List Nat) (movieId : Nat) (wasLiked : Bool) :
    List Nat × List Nat :=
  if wasLiked then
    ((if movieId ∈ liked then liked else liked ++ [movieId]),
      disliked.filter (fun i => i ≠ movieId))
  else
    (liked.filter (fun i => i ≠ movieId),
      (if movieId ∈ disliked then disliked else disliked ++ [movieId]))

/-! ## C6: TTL-checked request caches (main.js:51-53, 899, 1066-1076)

Both `searchResultCache` and `suggestionCache` are JS `Map`s from a key
string to `{ results, time }`; a lookup succeeds when an entry exists and
`Date.now() - cached.time < CACHE_TTL_MS` (main.js:899, main.js:1070).
`Map.set` overwrites the entry for the key (main.js:928, 1075).  The map is
modelled as an association list where `set` prepends and lookup takes the
most recent binding, which is observationally the same. -/

/-- The constant `CACHE_TTL_MS` from main.js:51. -/
def CACHE_TTL_MS : Int := 30000

/-- One channel's result cache: key ↦ (results, stored-at timestamp). -/
abbrev ResultCache : Type := List (String × List Movie × Int)

/-- JS `Map.prototype.get`: the current binding of `k`, if any. -/
def cacheFind : ResultCache → String → Option (List Movie × Int)
  | [], _ => none
  | (k', v) :: rest, k => if k' = k then some v else cacheFind rest k

/-- JS `Map.prototype.set` at store time `t` (main.js:928, main.js:1075). -/
def cacheStore (c : ResultCache) (k : String) (v : List Movie) (t : Int) :
    ResultCache :=
  (k, v, t) :: c

/-- The TTL-guarded lookup pattern of main.js:899 and main.js:1070:
`cached && (Date.now() - cached.time) < CACHE_TTL_MS`. -/
def cacheLookup (c : ResultCache) (k : String) (now : Int) :
    Option (List Movie) :=
  match cacheFind c k with
  | some (v, t) => if now - t < CACHE_TTL_MS then some v else none
  | none => none

/-! ## C7: cache keys

Suggestion channel (main.js:897):
```js
const cacheKey = `${query}|${(userProfile.language||[]).join(',')}|${userProfile.safe_mode?'1':'0'}`;
```
Search channel (main.js:1051-1067): the key is `params.toString()` for a
`URLSearchParams` populated, in order, with `query`, `safe_mode=true`
(only when safe mode is on), `languages` (only when the language list is
non-empty, joined with `','`), and `limit=10`.  `URLSearchParams.toString`
serializes `name=value` pairs joined by `'&'`, percent-encoding every
character outside `[A-Za-z0-9*\-._]` and turning spaces into `'+'`
(the application/x-www-form-urlencoded serializer); characters above
U+007F are UTF-8 encoded byte-wise, so the model below is exact for
ASCII inputs (all parameter names and fixed values are ASCII). -/

/-- JS `Array.prototype.join(',')`. -/
def joinComma : List String → String
  | [] => ""
  | [s] => s
  | s :: s2 :: rest => s ++ "," ++ joinComma (s2 :: rest)

/-- The suggestion-channel cache key of main.js:897. -/
def suggestionCacheKey (q : String) (langs : List String) (safe : Bool) :
    String :=
  q ++ "|" ++ joinComma langs ++ "|" ++ (if safe then "1" else "0")

/-- Characters the urlencoded serializer leaves as-is. -/
def safeChar (c : Char) : Bool :=
  c.isAlphanum || c = '-' || c = '.' || c = '_' || c = '*'

/-- Upper-case hex digit of a value below 16. -/
def hexDigit (n : Nat) : Char :=
  if n < 10 then Char.ofNat (48 + n) else Char.ofNat (55 + n)

/-- Encoding of one character under the urlencoded serializer
(exact for code points below U+0080). -/
def urlencodeChar (c : Char) : List Char :=
  if safeChar c then [c]
  else if c = ' ' then ['+']
  else ['%', hexDigit (c.toNat / 16), hexDigit (c.toNat % 16)]

/-- The urlencoded serialization of a string. -/
def urlencode (s : String) : String :=
  String.mk (List.flatten (s.data.map urlencodeChar))

/-- The search-channel cache key of main.js:1051-1067
(`params.toString()`); parameter names and the fixed values `true` and
`10` consist of safe characters, so they serialize as themselves. -/
def searchCacheKey (q : String) (langs : List String) (safe : Bool) :
    String :=
  "query=" ++ urlencode q
    ++ (if safe then "&safe_mode=true" else "")
    ++ (if langs.isEmpty then ""
        else "&languages=" ++ urlencode (joinComma langs))
    ++ "&limit=10"

/-! ## C10: `getMoviePoster` (main.js:426-451) -/

/-- The constant `IMAGE_BASE_URL` (config.js default). -/
def IMAGE_BASE_URL : String := "https://image.tmdb.org/t/p/w500"

/-- The constant `FALLBACK_POSTER_URL` (config.js default). -/
def FALLBACK_POSTER_URL : String :=
  "https://dummyimage.com/500x750/1f2937/9ca3af&text=No+Poster"

/-- A movie object as seen by `getMoviePoster`: the eight optional
poster/backdrop fields probed at main.js:428-437.  A JS field that is
absent, `null` or `undefined` is `none`; a string field is `some`. -/
structure MovieObj where
  poster_path : Option String := none
  poster : Option String := none
  posterUrl : Option String := none
  poster_url : Option String := none
  image_url : Option String := none
  image : Option String := none
  poster_path_hq : Option String := none
  backdrop_path : Option String := none
deriving DecidableEq, Repr

/-- The candidate order of main.js:428-437. -/
def candidatesOf (m : MovieObj) : List (Option String) :=
  [m.poster_path, m.poster, m.posterUrl, m.poster_url,
    m.image_url, m.image, m.poster_path_hq, m.backdrop_path]

/-- The per-candidate filter of main.js:439-441: `!candidate` skips
(absent or empty string), then the trimmed value is discarded when blank
or equal to `'null'`, `'None'`, `'undefined'`, or case-insensitively
`'nan'`; otherwise the trimmed value is used. -/
def usableRaw : Option String → Option String
  | none => none
  | some s =>
    if s = "" then none
    else
      let raw := jsTrim s
      if raw = "" ∨ raw = "null" ∨ raw = "None" ∨ raw = "undefined" ∨
          lowerStr raw = "nan" then none
      else some raw

/-- JS `raw.replace(/^\/+/, '')`. -/
def dropSlashes (s : String) : String :=
  String.mk (s.data.dropWhile (fun c => c = '/'))

/-- The URL derivation of main.js:442-448 applied to a usable trimmed
candidate. -/
def deriveUrl (raw : String) : String :=
  if strStarts raw "data:image" then raw
  else if strStarts raw "http" then raw
  else if strStarts raw "//" then "https:" ++ raw
  else if strHas raw "image.tmdb.org" then
    (if strStarts raw "http" then raw else "https:" ++ raw)
  else if strStarts raw "/" then IMAGE_BASE_URL ++ raw
  else IMAGE_BASE_URL ++ "/" ++ dropSlashes raw

/-- The candidate loop of main.js:438-449. -/
def posterLoop : List (Option String) → String
  | [] => FALLBACK_POSTER_URL
  | c :: rest =>
    match usableRaw c with
    | none => posterLoop rest
    | some raw => deriveUrl raw

/-- The function `getMoviePoster` from main.js:426-451.  A `none` argument stands for
the JS guard `!movie || typeof movie !== 'object'`. -/
def getMoviePoster : Option MovieObj → String
  | none => FALLBACK_POSTER_URL
  | some m => posterLoop (candidatesOf m)

/-! ## C2: local suggestions (`getImmediateSuggestions`, main.js:858-876) -/

/-- The fixed local reference list `commonMovies` of main.js:859-870. -/
def commonMovies : List Movie :=
  [⟨155, "The Dark Knight"⟩, ⟨27205, "Inception"⟩, ⟨157336, "Interstellar"⟩,
    ⟨603, "The Matrix"⟩, ⟨680, "Pulp Fiction"⟩, ⟨238, "The Godfather"⟩,
    ⟨19995, "Avatar"⟩, ⟨597, "Titanic"⟩, ⟨11, "Star Wars"⟩,
    ⟨24428, "The Avengers"⟩]

/-- The function `getImmediateSuggestions` from main.js:858-876: case-insensitive
substring filter over `commonMovies`, first 4 matches (`slice(0, 4)`). -/
def getImmediateSuggestions (q : String) : List Movie :=
  (commonMovies.filter (fun m => strHas (lowerStr m.title) (lowerStr q))).take 4

/-! ## C5: the per-channel abort-then-install pattern

Each of the three request channels is a module-level variable holding the
channel's current `AbortController` (main.js:852-854).  Starting a new
request on a channel always executes the pattern

```js
if (channelController) {
    channelController.abort();
}
channelController = new AbortController();
```

(suggestions: main.js:904-908; search: main.js:1038-1045; recommendations:
main.js:1088-1091 and main.js:1136-1138).  Controllers are modelled as
tokens drawn from a freshness counter; `abort()` adds the token to the set
of cancelled tokens.  The `issued` field records every token the channel
ever returned (the trace of `begin` results). -/

/-- The pattern `if (ctl) ctl.abort();` — signal cancellation on the channel's current
token, if any. -/
def abortOpt : Option Nat → List Nat → List Nat
  | some t, ab => t :: ab
  | none, ab => ab

/-- One request channel: current controller token, cancelled tokens,
freshness counter, and the trace of issued tokens. -/
structure Chan where
  current : Option Nat
  aborted : List Nat
  nextT : Nat
  issued : List Nat
deriving DecidableEq, Repr

/-- A channel before any request. -/
def chanInit : Chan := ⟨none, [], 0, []⟩

/-- Starting a new request on a channel: abort the prior controller, then
install and return a fresh one (the pattern of main.js:904-908). -/
def beginReq (ch : Chan) : Nat × Chan :=
  let ab := abortOpt ch.current ch.aborted
  (ch.nextT, ⟨some ch.nextT, ab, ch.nextT + 1, ch.nextT :: ch.issued⟩)

/-- The channel after `n` consecutive request starts. -/
def beginN : Nat → Chan
  | 0 => chanInit
  | n + 1 => (beginReq (beginN n)).2

/-! ## The interleaving model (C1, C2, C8)

The client is single-threaded and event-driven (spec section 5): an
execution is an interleaving of synchronous blocks separated by `await`
suspension points.  The model runs `getSearchSuggestions`
(main.js:878-938) and `searchMovies` (main.js:1031-1117) as tasks:

* starting an invocation runs its synchronous prefix (argument checks,
  short-circuits, cache lookup, controller abort/install) and, if it
  reaches a network call, suspends;
* a suspended network call resumes when the scheduler delivers it.  If its
  controller token was aborted in the meantime the `fetch`/`json` promise
  rejects and the invocation's `catch` block runs (for suggestions this
  renders the empty list, main.js:933-937; for search it only hides the
  spinner, main.js:1112-1116).  Otherwise the synchronous continuation
  after `json()` runs;
* `await displayMovies(...)` (main.js:1085, 1103) is a suspension point
  that is *not* tied to any controller (the enrichment fetches inside it
  carry no signal and the DOM write is deferred to an animation frame),
  so its continuation always runs when delivered.

The fields `shownSuggestions`, `shownSearch` and `shownRecs` model the
rendered result sets (`none` = the view is hidden). -/

/-- The environment: backend responses and the fixed profile parameters
used to build keys (`userProfile.language`, `userProfile.safe_mode`). -/
structure Env where
  server : String → List Movie
  recServer : Nat → List Movie
  langs : List String
  safe : Bool

/-- A suspended continuation: the suggestion network call
(main.js:922-923), the search network call (main.js:1073-1074), the
search `displayMovies` call (main.js:1085) with its follow-up, the chained
recommendation network call (main.js:1099-1100), and the recommendation
`displayMovies` call (main.js:1103). -/
inductive ATask where
  | sugNet (tok : Nat) (q : String) (key : String)
  | schNet (tok : Nat) (q : String) (key : String)
  | schDisplay (tok : Nat) (q : String) (results : List Movie)
  | recNet (tok : Nat) (seed : Nat)
  | recDisplay (recs : List Movie)
deriving DecidableEq, Repr

/-- The shared client state mutated by the two flows. -/
structure AppState where
  sugCtl : Option Nat
  schCtl : Option Nat
  recCtl : Option Nat
  abortedT : List Nat
  nextTok : Nat
  now : Int
  sugCache : ResultCache
  schCache : ResultCache
  history : List Nat
  shownSuggestions : Option (List Movie)
  shownSearch : Option (List Movie)
  shownRecs : Option (List Movie)
  tasks : List ATask
deriving DecidableEq, Repr

/-- The state at page load. -/
def initState : AppState :=
  ⟨none, none, none, [], 0, 0, [], [], [], none, none, none, []⟩

/-- The value `results[0].id` for a non-empty result list. -/
def headId : List Movie → Nat
  | [] => 0
  | m :: _ => m.id

/-- The synchronous prefix of `getSearchSuggestions(q)` (main.js:878-921):
blank or length-1 input hides the suggestions; length ≤ 3 with a non-empty
local match displays the local matches; a fresh cache entry displays the
cached results; otherwise the in-flight suggestion controller is aborted,
a fresh one installed, and the network call suspends. -/
def stepSug (env : Env) (s : AppState) (q : String) : AppState :=
  if jsTrim q = "" ∨ q.length < 2 then
    { s with shownSuggestions := none }
  else if q.length ≤ 3 ∧ getImmediateSuggestions q ≠ [] then
    { s with shownSuggestions := some (getImmediateSuggestions q) }
  else
    let key := suggestionCacheKey q env.langs env.safe
    match cacheLookup s.sugCache key s.now with
    | some v => { s with shownSuggestions := some v }
    | none =>
      { s with
          sugCtl := some s.nextTok,
          abortedT := abortOpt s.sugCtl s.abortedT,
          nextTok := s.nextTok + 1,
          tasks := s.tasks ++ [ATask.sugNet s.nextTok q key] }

/-- The synchronous prefix of `searchMovies(q)` (main.js:1031-1076):
no-op on blank input; hides the suggestion dropdown (main.js:1036); aborts
the current search and recommendation controllers and installs a fresh
search controller (main.js:1038-1045); then either serves a fresh cache
entry (continuing synchronously to the history write before suspending at
`displayMovies`, or hiding both views on an empty cached list) or suspends
at the network call. -/
def stepSch (env : Env) (s : AppState) (q : String) : AppState :=
  if jsTrim q = "" then s
  else
    let key := searchCacheKey q env.langs env.safe
    let base : AppState :=
      { s with
          shownSuggestions := none,
          schCtl := some s.nextTok,
          abortedT := abortOpt s.recCtl (abortOpt s.schCtl s.abortedT),
          nextTok := s.nextTok + 1 }
    match cacheLookup s.schCache key s.now with
    | some results =>
      if results.isEmpty then
        { base with shownSearch := none, shownRecs := none }
      else
        { base with
            history := addToHistory base.history (headId results),
            tasks := base.tasks ++ [ATask.schDisplay s.nextTok q results] }
    | none =>
      { base with tasks := base.tasks ++ [ATask.schNet s.nextTok q key] }

/-- Resuming a delivered suspension (the state already has the delivered
task removed from `tasks`). -/
def resumeTask (env : Env) (s : AppState) : ATask → AppState
  | .sugNet tok q key =>
    if tok ∈ s.abortedT then
      -- the fetch rejects; catch at main.js:933-937 renders the empty list
      { s with shownSuggestions := some [] }
    else
      let results := env.server q
      { s with
          shownSuggestions := some results,
          sugCache := cacheStore s.sugCache key results s.now }
  | .schNet tok q key =>
    if tok ∈ s.abortedT then
      -- the fetch rejects; catch at main.js:1112-1116 only hides the spinner
      s
    else
      let results := env.server q
      let s1 := { s with schCache := cacheStore s.schCache key results s.now }
      if results.isEmpty then
        { s1 with shownSearch := none, shownRecs := none }
      else
        { s1 with
            history := addToHistory s1.history (headId results),
            tasks := s1.tasks ++ [ATask.schDisplay tok q results] }
  | .schDisplay _ _ results =>
    -- main.js:1085-1099: the deferred DOM write lands, then the
    -- recommendation controller is aborted, a fresh one installed, and the
    -- chained recommendation fetch suspends (no token check occurs here)
    { s with
        shownSearch := some results,
        recCtl := some s.nextTok,
        abortedT := abortOpt s.recCtl s.abortedT,
        nextTok := s.nextTok + 1,
        tasks := s.tasks ++ [ATask.recNet s.nextTok (headId results)] }
  | .recNet tok seed =>
    if tok ∈ s.abortedT then s
    else
      let recs := env.recServer seed
      if recs.isEmpty then { s with shownRecs := none }
      else { s with tasks := s.tasks ++ [ATask.recDisplay recs] }
  | .recDisplay recs => { s with shownRecs := some recs }

/-- Scheduler actions: start a suggestion query (the debounced callback of
main.js:1320-1322), start a search, let time pass, or deliver the `i`-th
suspended task. -/
inductive Act where
  | sug (q : String)
  | sch (q : String)
  | tick (d : Int)
  | deliver (i : Nat)
deriving DecidableEq, Repr

/-- One scheduler step. -/
def step (env : Env) (s : AppState) : Act → AppState
  | .sug q => stepSug env s q
  | .sch q => stepSch env s q
  | .tick d => { s with now := s.now + d }
  | .deliver i =>
    match s.tasks[i]? with
    | none => s
    | some tk => resumeTask env { s with tasks := s.tasks.eraseIdx i } tk

/-- The state reached by an action sequence from page load. -/
def run (env : Env) (acts : List Act) : AppState :=
  acts.foldl (step env) initState

/-- The effects C1 talks about: caches, history, and the three rendered
result sets (everything except scheduler bookkeeping). -/
structure Obs where
  sugCache : ResultCache
  schCache : ResultCache
  history : List Nat
  shownSuggestions : Option (List Movie)
  shownSearch : Option (List Movie)
  shownRecs : Option (List Movie)
deriving DecidableEq, Repr

/-- The observable part of a state. -/
def observables (s : AppState) : Obs :=
  ⟨s.sugCache, s.schCache, s.history, s.shownSuggestions, s.shownSearch,
    s.shownRecs⟩

/-- For a suspended network task: its controller token together with the
current controller of its channel.  The channel variable moves off a
task's token exactly when a newer request has since been started on that
channel. -/
def taskChanCtl (s : AppState) : ATask → Option (Nat × Option Nat)
  | .sugNet tok _ _ => some (tok, s.sugCtl)
  | .schNet tok _ _ => some (tok, s.schCtl)
  | .recNet tok _ => some (tok, s.recCtl)
  | _ => none

/-- Claim C1 as stated: in every execution, delivering a network completion
whose channel has since moved to a newer request leaves every observable
effect (caches, history, rendered views) unchanged. -/
def c1ClaimStatement : Prop :=
  ∀ (env : Env) (acts : List Act) (i : Nat) (tk : ATask) (tok : Nat)
    (cur : Option Nat),
    (run env acts).tasks[i]? = some tk →
    taskChanCtl (run env acts) tk = some (tok, cur) →
    cur ≠ some tok →
    observables (step env (run env acts) (.deliver i)) =
      observables (run env acts)

/-! ## C9: the keystroke debounce machine (main.js:1305-1323)

```js
document.getElementById('search-input').addEventListener('input', (e) => {
    const query = e.target.value.trim();
    if (searchTimeout) { clearTimeout(searchTimeout); }
    if (!query) { hideSuggestions(); return; }
    searchTimeout = setTimeout(() => { getSearchSuggestions(query); }, 150);
});
```

`pending` is the armed timer (deadline, trimmed query); `fired` records
every downstream `getSearchSuggestions` call with its firing time.  A
timer whose deadline has passed fires before the next keystroke is
handled; any remaining timer fires once the input goes quiet. -/

/-- Debounce state: the armed timer and the downstream calls so far. -/
structure DebState where
  pending : Option (Nat × String)
  fired : List (Nat × String)
deriving DecidableEq, Repr

/-- No timer armed, nothing fired. -/
def debInit : DebState := ⟨none, []⟩

/-- Deliver a timer that is due at or before time `t`. -/
def debCatch (s : DebState) (t : Nat) : DebState :=
  match s.pending with
  | some (d, q) => if d ≤ t then ⟨none, s.fired ++ [(d, q)]⟩ else s
  | none => s

/-- One keystroke at time `t` with input value `text` (main.js:1305-1323):
an overdue timer fires first; then the handler clears any pending timer,
and either stops (blank trimmed value, hiding suggestions) or arms a new
timer for `t + 150`. -/
def keyStroke (s : DebState) (t : Nat) (text : String) : DebState :=
  let s1 := debCatch s t
  if jsTrim text = "" then { s1 with pending := none }
  else { s1 with pending := some (t + 150, jsTrim text) }

/-- After the last keystroke the input goes quiet and a remaining timer
fires. -/
def debFlush (s : DebState) : DebState :=
  match s.pending with
  | some (d, q) => ⟨none, s.fired ++ [(d, q)]⟩
  | none => s

/-- The downstream calls produced by a keystroke sequence. -/
def debRun (events : List (Nat × String)) : DebState :=
  debFlush (events.foldl (fun s e => keyStroke s e.1 e.2) debInit)

/-! ## Concrete environments used by counterexamples and witnesses -/

/-- A backend that answers every query with an empty result list. -/
def envEmpty : Env :=
  { server := fun _ => [], recServer := fun _ => [],
    langs := ["en"], safe := true }

/-- A backend with one non-trivial query result, used to exhibit stale
completions. -/
def envStale : Env :=
  { server := fun q =>
      if q = "matrix77" then [⟨1603, "The Matrix 77"⟩] else [⟨1, "X"⟩],
    recServer := fun _ => [],
    langs := ["en"], safe := true }

/-- The first usable poster candidate of a movie object (the value the
loop of main.js:438-449 derives its URL from). -/
def firstUsable (m : MovieObj) : Option String :=
  (candidatesOf m).findSome? usableRaw

/-- Well-formed language codes: non-empty and free of the separators used
by the key constructions.  Every code the client offers
(main.js:12-23: en, hi, es, fr, de, ja, ko, pt, it, ru) satisfies this. -/
def wfCode (s : String) : Prop :=
  s ≠ "" ∧ ',' ∉ s.data ∧ '|' ∉ s.data

instance (s : String) : Decidable (wfCode s) :=
  inferInstanceAs (Decidable (s ≠ "" ∧ ',' ∉ s.data ∧ '|' ∉ s.data))

/-- ASCII strings, on which the urlencoded-serializer model is exact. -/
def asciiStr (s : String) : Prop := ∀ c ∈ s.data, c.toNat < 128

instance (s : String) : Decidable (asciiStr s) :=
  inferInstanceAs (Decidable (∀ c ∈ s.data, c.toNat < 128))

/-- Consecutive keystrokes separated by less than the 150 ms quiescence
delay. -/
def withinWindow (a b : Nat × String) : Prop := b.1 < a.1 + 150

instance : ∀ a b, Decidable (withinWindow a b) := fun _ _ => Nat.decLt _ _

/-- Channel well-formedness: issued and aborted tokens are below the
freshness counter, the current token (if any) is an issued, non-aborted
token, and every issued token is either current or aborted. -/
def chanInv (ch : Chan) : Prop :=
  (∀ t ∈ ch.issued, t < ch.nextT) ∧
  (∀ t ∈ ch.aborted, t < ch.nextT) ∧
  (∀ t, ch.current = some t → t ∈ ch.issued ∧ t ∉ ch.aborted) ∧
  (∀ t ∈ ch.issued, ch.current = some t ∨ t ∈ ch.aborted)

/-- The search-channel token discipline: every suspended search network
task's token is either the channel's current token or already aborted. -/
def schNetOk (s : AppState) : Prop :=
  ∀ tok q key, ATask.schNet tok q key ∈ s.tasks →
    s.schCtl = some tok ∨ tok ∈ s.abortedT

/-- What follows the first `'&'` after the encoded query in the
search-channel key, by safe-mode flag and language-list emptiness. -/
def tailData : Bool → List String → List Char
  | true, [] =>
    ("safe_mode=true" : String).data ++ ("&limit=10" : String).data
  | true, s :: rest =>
    ("safe_mode=true" : String).data ++ ("&languages=" : String).data ++
      (urlencode (joinComma (s :: rest))).data ++ ("&limit=10" : String).data
  | false, [] => ("limit=10" : String).data
  | false, s :: rest =>
    ("languages=" : String).data ++
      (urlencode (joinComma (s :: rest))).data ++ ("&limit=10" : String).data


/-! # Theorems -/

/-! ## C3: the history list -/

/-- Claim C3: the function `addToHistory` inserts an absent id at the front and truncates
to at most 100 entries; an already-present id leaves the list entirely
unchanged (in particular it is not duplicated and no ordering changes);
from any list of at most 100 entries the result again has at most 100
entries. -/
theorem addToHistory_history_spec (h : List Nat) (movieId : Nat) :
    (movieId ∉ h → addToHistory h movieId = (movieId :: h).take 100) ∧
    (movieId ∈ h → addToHistory h movieId = h) ∧
    (h.length ≤ 100 → (addToHistory h movieId).length ≤ 100) := by
  refine ⟨fun hn => ?_, fun hm => ?_, fun hl => ?_⟩
  · simp [addToHistory, hn]
  · simp [addToHistory, hm]
  · by_cases hm : movieId ∈ h
    · simp only [addToHistory, hm, if_true]
      exact hl
    · simp only [addToHistory, hm, if_false, List.length_take]
      exact Nat.min_le_left 100 (h.length + 1)

/-- Witness for C3 at concrete inputs. -/
theorem addToHistory_history_spec_witness :
    addToHistory [1, 2] 3 = [3, 1, 2] ∧ addToHistory [5, 7] 7 = [5, 7] :=
  ⟨((addToHistory_history_spec [1, 2] 3).1 (by decide)).trans (by decide),
    (addToHistory_history_spec [5, 7] 7).2.1 (by decide)⟩

/-! ## C4: rating keeps liked/disliked disjoint -/

/-- Claim C4: from any profile state in which `liked_movies` and
`disliked_movies` are disjoint, `rateMovie` yields a state in which they
are again disjoint; rating liked puts the id in `liked_movies` and removes
it from `disliked_movies`, and rating disliked does the opposite. -/
theorem rateMovie_disjoint (liked disliked : List Nat) (movieId : Nat)
    (wasLiked : Bool)
    (hdisj : ∀ x, x ∈ liked → x ∉ disliked) :
    (∀ x, x ∈ (rateMovie liked disliked movieId wasLiked).1 →
      x ∉ (rateMovie liked disliked movieId wasLiked).2) ∧
    (wasLiked = true →
      movieId ∈ (rateMovie liked disliked movieId wasLiked).1 ∧
      movieId ∉ (rateMovie liked disliked movieId wasLiked).2) ∧
    (wasLiked = false →
      movieId ∉ (rateMovie liked disliked movieId wasLiked).1 ∧
      movieId ∈ (rateMovie liked disliked movieId wasLiked).2) := by
  cases wasLiked
  · have e : rateMovie liked disliked movieId false =
        (liked.filter (fun i => i ≠ movieId),
          if movieId ∈ disliked then disliked else disliked ++ [movieId]) := by
      simp [rateMovie]
    rw [e]
    refine ⟨?_, by simp, fun _ => ⟨?_, ?_⟩⟩
    · intro x hx
      rw [List.mem_filter] at hx
      rcases hx with ⟨hxl, hxb⟩
      have hxne : x ≠ movieId := by simpa using hxb
      by_cases hmem : movieId ∈ disliked
      · simpa [hmem] using hdisj x hxl
      · simp only [hmem, if_false]
        intro hc
        rcases List.mem_append.mp hc with h1 | h1
        · exact hdisj x hxl h1
        · exact hxne (by simpa using h1)
    · simp [List.mem_filter]
    · by_cases hmem : movieId ∈ disliked <;> simp [hmem]
  · have e : rateMovie liked disliked movieId true =
        ((if movieId ∈ liked then liked else liked ++ [movieId]),
          disliked.filter (fun i => i ≠ movieId)) := by
      simp [rateMovie]
    rw [e]
    refine ⟨?_, fun _ => ⟨?_, ?_⟩, by simp⟩
    · intro x hx
      intro hc
      rw [List.mem_filter] at hc
      rcases hc with ⟨hxd, hxb⟩
      have hxne : x ≠ movieId := by simpa using hxb
      by_cases hmem : movieId ∈ liked
      · rw [if_pos hmem] at hx
        exact hdisj x hx hxd
      · rw [if_neg hmem] at hx
        rcases List.mem_append.mp hx with h1 | h1
        · exact hdisj x h1 hxd
        · exact hxne (by simpa using h1)
    · by_cases hmem : movieId ∈ liked <;> simp [hmem]
    · simp [List.mem_filter]

/-- Witness for C4 at concrete inputs. -/
theorem rateMovie_disjoint_witness :
    7 ∈ (rateMovie [1, 2] [7, 9] 7 true).1 ∧
    7 ∉ (rateMovie [1, 2] [7, 9] 7 true).2 := by
  exact (rateMovie_disjoint [1, 2] [7, 9] 7 true (by decide)).2.1 rfl

/-! ## C6: cache TTL semantics -/

/-- Claim C6: with the configured TTL of 30,000 ms: a lookup of a key at the
instant `T` at which its value was stored returns the stored value; a
lookup at `T + TTL + ε` for any `ε > 0` returns nothing; and in general a
lookup of the freshly stored key at time `now` succeeds exactly while
`now - T < TTL`. -/
theorem cacheLookup_ttl_spec (c : ResultCache) (k : String) (v : List Movie)
    (T ε : Int) (hε : 0 < ε) :
    cacheLookup (cacheStore c k v T) k T = some v ∧
    cacheLookup (cacheStore c k v T) k (T + CACHE_TTL_MS + ε) = none ∧
    (∀ now : Int,
      cacheLookup (cacheStore c k v T) k now = some v ↔
        now - T < CACHE_TTL_MS) := by
  have hfind : cacheFind (cacheStore c k v T) k = some (v, T) := by
    simp [cacheFind, cacheStore]
  refine ⟨?_, ?_, fun now => ?_⟩
  · simp [cacheLookup, hfind, CACHE_TTL_MS]
  · simp only [cacheLookup, hfind]
    rw [if_neg]
    simp only [CACHE_TTL_MS]
    omega
  · simp only [cacheLookup, hfind]
    constructor
    · intro h
      by_contra hc
      rw [if_neg hc] at h
      exact Option.noConfusion h
    · intro h
      rw [if_pos h]

/-- Witness for C6 at concrete inputs (store at 0, `ε = 1`). -/
theorem cacheLookup_ttl_spec_witness :
    cacheLookup (cacheStore [] "k" [] 0) "k" 0 = some [] ∧
    cacheLookup (cacheStore [] "k" [] 0) "k" 30001 = none := by
  refine ⟨(cacheLookup_ttl_spec [] "k" [] 0 1 (by decide)).1, ?_⟩
  have h := (cacheLookup_ttl_spec [] "k" [] 0 1 (by decide)).2.1
  norm_num [CACHE_TTL_MS] at h
  exact h

/-! ## C8: empty search results are a valid outcome -/

/-- Claim C8: delivering a search-channel network completion whose token is
still live and whose result list is empty hides both the search-results
view and the recommendations view, leaves the history untouched, and
spawns no chained recommendation request (the pending-task list only loses
the delivered completion).  This is the `else` branch of
main.js:1107-1111. -/
theorem searchEmpty_spec (env : Env) (s : AppState) (i tok : Nat)
    (q key : String)
    (h1 : s.tasks[i]? = some (.schNet tok q key))
    (h2 : tok ∉ s.abortedT)
    (h3 : env.server q = []) :
    (step env s (.deliver i)).shownSearch = none ∧
    (step env s (.deliver i)).shownRecs = none ∧
    (step env s (.deliver i)).history = s.history ∧
    (step env s (.deliver i)).tasks = s.tasks.eraseIdx i := by
  simp [step, h1, resumeTask, h2, h3]

/-- Witness for C8: a search for `"zzzzzznotfound"` against a backend that
returns no results. -/
theorem searchEmpty_spec_witness :
    (step envEmpty (run envEmpty [.sch "zzzzzznotfound"])
        (.deliver 0)).shownSearch = none ∧
    (step envEmpty (run envEmpty [.sch "zzzzzznotfound"])
        (.deliver 0)).shownRecs = none ∧
    (step envEmpty (run envEmpty [.sch "zzzzzznotfound"])
        (.deliver 0)).history = (run envEmpty [.sch "zzzzzznotfound"]).history ∧
    (step envEmpty (run envEmpty [.sch "zzzzzznotfound"])
        (.deliver 0)).tasks =
      (run envEmpty [.sch "zzzzzznotfound"]).tasks.eraseIdx 0 :=
  searchEmpty_spec envEmpty (run envEmpty [.sch "zzzzzznotfound"]) 0 0
    "zzzzzznotfound"
    "query=zzzzzznotfound&safe_mode=true&languages=en&limit=10"
    (by decide) (by decide) rfl

/-! ## C2: short queries and the local suggestion list -/

/-- Claim C2 (amended): for a non-blank input of length 2 or 3 whose local
match against `commonMovies` is non-empty, `getSearchSuggestions` displays
exactly the local matches (at most 4) and does nothing else: no network
task is spawned, no controller is touched, and neither cache is read or
written.  For any input of length < 2 (in particular every length-1
input) the pipeline hides the suggestions and likewise does nothing
else. -/
theorem suggestShortLocal_spec :
    (∀ (env : Env) (s : AppState) (q : String),
      jsTrim q = "" ∨ q.length < 2 →
      step env s (.sug q) = { s with shownSuggestions := none }) ∧
    (∀ (env : Env) (s : AppState) (q : String),
      jsTrim q ≠ "" → 2 ≤ q.length → q.length ≤ 3 →
      getImmediateSuggestions q ≠ [] →
      step env s (.sug q) =
        { s with shownSuggestions := some (getImmediateSuggestions q) }) := by
  constructor
  · intro env s q h
    show stepSug env s q = _
    rw [stepSug, if_pos h]
  · intro env s q h1 h2 h3 h4
    show stepSug env s q = _
    rw [stepSug, if_neg (by push_neg; exact ⟨h1, by omega⟩), if_pos ⟨h3, h4⟩]

/-- Counterexample for C2 as stated: the length-1 query `"a"` does not
yield any local matches — the pipeline hides the suggestion dropdown
(main.js:879-882) even though the local list has matches for `"a"`; and
those local matches would in any case not have `"Avatar"` among their
first 4. -/
theorem suggestShortLocal_counterexample :
    (step envEmpty initState (Act.sug "a")).shownSuggestions = none ∧
    getImmediateSuggestions "a" ≠ [] ∧
    "Avatar" ∉ (getImmediateSuggestions "a").map Movie.title := by decide

/-- Witness for C2 at the concrete query `"av"`. -/
theorem suggestShortLocal_spec_witness :
    step envEmpty initState (Act.sug "av") =
      { initState with
          shownSuggestions :=
            some [⟨19995, "Avatar"⟩, ⟨24428, "The Avengers"⟩] } :=
  (suggestShortLocal_spec.2 envEmpty initState "av" (by decide) (by decide)
    (by decide) (by decide)).trans (by decide)

/-! ## C9: the keystroke debounce -/

/-- Folding further keystrokes that all arrive inside the quiescence
window of their predecessor never fires the pending timer: the state keeps
the accumulated firings `acc` and carries exactly the timer armed by the
last keystroke. -/
theorem debFold_aux (evs : List (Nat × String)) :
    ∀ (t : Nat) (q : String) (acc : List (Nat × String)),
      List.Chain' withinWindow ((t, q) :: evs) →
      evs.foldl (fun s e => keyStroke s e.1 e.2)
        ⟨if jsTrim q = "" then none else some (t + 150, jsTrim q), acc⟩ =
      ⟨if jsTrim (evs.getLastD (t, q)).2 = "" then none
        else some ((evs.getLastD (t, q)).1 + 150,
          jsTrim (evs.getLastD (t, q)).2), acc⟩ := by
  induction evs with
  | nil => intro t q acc _; simp [List.getLastD]
  | cons e rest ih =>
    intro t q acc hch
    obtain ⟨t', q'⟩ := e
    rw [List.chain'_cons] at hch
    obtain ⟨hw, hch'⟩ := hch
    rw [List.foldl_cons]
    have hks : keyStroke
        ⟨if jsTrim q = "" then none else some (t + 150, jsTrim q), acc⟩ t' q' =
        ⟨if jsTrim q' = "" then none else some (t' + 150, jsTrim q'), acc⟩ := by
      unfold keyStroke debCatch
      by_cases hq : jsTrim q = ""
      · by_cases hq' : jsTrim q' = "" <;> simp [hq, hq']
      · have hnf : ¬ (t + 150 ≤ t') := by
          have : t' < t + 150 := hw
          omega
        by_cases hq' : jsTrim q' = "" <;> simp [hq, hq', hnf]
    rw [hks, ih t' q' acc hch', List.getLastD_cons]

/-- Claim C9 (amended): for every sequence of `N ≥ 1` keystrokes in which
each consecutive pair is separated by less than the 150 ms quiescence
delay and whose *last* keystroke carries a non-blank trimmed value,
exactly one downstream suggestion query fires, with the last keystroke's
trimmed text, scheduled 150 ms after the last keystroke.  Moreover every
keystroke cancels any pending schedule, re-arming a timer exactly when its
own trimmed text is non-blank (a blank keystroke cancels without
re-arming, main.js:1313-1317). -/
theorem debounce_spec (t : Nat) (q : String) (evs : List (Nat × String))
    (hchain : List.Chain' withinWindow ((t, q) :: evs))
    (hlast : jsTrim (evs.getLastD (t, q)).2 ≠ "") :
    (debRun ((t, q) :: evs)).fired =
      [((evs.getLastD (t, q)).1 + 150, jsTrim (evs.getLastD (t, q)).2)] ∧
    (∀ (s : DebState) (t' : Nat) (txt : String),
      (keyStroke s t' txt).pending =
        if jsTrim txt = "" then none else some (t' + 150, jsTrim txt)) := by
  constructor
  · unfold debRun
    rw [List.foldl_cons]
    have h0 : keyStroke debInit t q =
        ⟨if jsTrim q = "" then none else some (t + 150, jsTrim q), []⟩ := by
      unfold keyStroke debCatch debInit
      by_cases hq : jsTrim q = "" <;> simp [hq]
    rw [h0, debFold_aux evs t q [] hchain, if_neg hlast]
    simp [debFlush]
  · intro s t' txt
    by_cases h : jsTrim txt = "" <;> simp [keyStroke, h]

/-- Counterexample for C9 as stated: two keystrokes 100 ms apart whose
second input trims to blank (a lone space) produce **zero** downstream
queries, not exactly one — the blank keystroke cancels the pending
schedule without restarting the timer (main.js:1313-1317). -/
theorem debounce_counterexample :
    (debRun [(0, "ab"), (100, " ")]).fired = [] ∧
    (debRun [(0, "ab"), (100, " ")]).fired.length ≠ 1 := by decide

/-- Witness for C9: three rapid keystrokes yield exactly one query, 150 ms
after the last one. -/
theorem debounce_spec_witness :
    (debRun [(0, "a b"), (100, "ab"), (200, "abc")]).fired = [(350, "abc")] :=
  (debounce_spec 0 "a b" [(100, "ab"), (200, "abc")]
    (by simp [List.chain'_cons, withinWindow]) (by decide)).1

/-! ## C5: one live controller per channel -/

theorem chanInv_beginReq (ch : Chan) (h : chanInv ch) :
    chanInv (beginReq ch).2 := by
  obtain ⟨h1, h2, h3, h4⟩ := h
  have habs : ∀ t, t ∈ abortOpt ch.current ch.aborted → t < ch.nextT := by
    intro t ht
    cases hc : ch.current with
    | none => rw [hc] at ht; exact h2 t ht
    | some c =>
      rw [hc] at ht
      rcases List.mem_cons.mp ht with rfl | ht'
      · exact h1 t (h3 t hc).1
      · exact h2 t ht'
  refine ⟨?_, ?_, ?_, ?_⟩ <;> simp only [beginReq]
  · intro t ht
    rcases List.mem_cons.mp ht with rfl | ht'
    · omega
    · exact Nat.lt_succ_of_lt (h1 t ht')
  · intro t ht
    exact Nat.lt_succ_of_lt (habs t ht)
  · intro t ht
    obtain rfl : ch.nextT = t := by simpa using ht
    refine ⟨List.mem_cons_self _ _, fun hc => ?_⟩
    exact absurd (habs _ hc) (by omega)
  · intro t ht
    rcases List.mem_cons.mp ht with rfl | ht'
    · exact Or.inl rfl
    · right
      rcases h4 t ht' with hcur | hab
      · rw [hcur]
        exact List.mem_cons_self _ _
      · cases hc : ch.current with
        | none => simpa [abortOpt, hc] using hab
        | some c => simp [abortOpt, hc, hab]

theorem chanInv_beginN (n : Nat) : chanInv (beginN n) := by
  induction n with
  | zero =>
    refine ⟨?_, ?_, ?_, ?_⟩ <;> simp [beginN, chanInit]
  | succ n ih => exact chanInv_beginReq _ ih

/-- Claim C5: after any sequence of request starts on a channel: every
issued token that has not been aborted is the channel's unique current
token (so at most one token is ever live); starting a further request
signals cancellation on the current token; and the token returned by that
start is installed as the new current token and is itself not cancelled at
that point. -/
theorem channel_begin_spec (n : Nat) :
    (∀ t ∈ (beginN n).issued, t ∉ (beginN n).aborted →
      (beginN n).current = some t) ∧
    (∀ t, (beginN n).current = some t → t ∈ (beginN (n + 1)).aborted) ∧
    (beginN (n + 1)).current = some (beginReq (beginN n)).1 ∧
    (beginReq (beginN n)).1 ∉ (beginN (n + 1)).aborted := by
  obtain ⟨h1, h2, h3, h4⟩ := chanInv_beginN n
  obtain ⟨g1, g2, g3, g4⟩ := chanInv_beginN (n + 1)
  refine ⟨?_, ?_, ?_, ?_⟩
  · intro t ht hab
    exact (h4 t ht).resolve_right hab
  · intro t hcur
    show t ∈ (beginReq (beginN n)).2.aborted
    simp only [beginReq, abortOpt, hcur]
    exact List.mem_cons_self _ _
  · rfl
  · exact (g3 _ rfl).2

/-- Witness for C5: after two request starts, token 0 has been cancelled
and token 1 is the unique live token. -/
theorem channel_begin_spec_witness :
    (beginN 1).current = some 0 ∧ 0 ∈ (beginN 2).aborted :=
  ⟨(channel_begin_spec 1).1 0 (by decide) (by decide),
    (channel_begin_spec 1).2.1 0 ((channel_begin_spec 0).2.2.1)⟩

/-! ## C10: `getMoviePoster` totality -/

theorem strDataInj : ∀ {a b : String}, a.data = b.data → a = b
  | ⟨_⟩, ⟨_⟩, rfl => rfl

theorem strAppend_ne_empty_left (a b : String) (h : a ≠ "") :
    a ++ b ≠ "" := by
  intro hab
  apply h
  apply strDataInj
  have hd := congrArg String.data hab
  rw [String.data_append] at hd
  exact (List.append_eq_nil.mp hd).1

theorem deriveUrl_ne_empty (raw : String) : deriveUrl raw ≠ "" := by
  by_cases hr : raw = ""
  · subst hr; decide
  · unfold deriveUrl
    split_ifs <;> first
      | exact hr
      | exact strAppend_ne_empty_left _ _ (by decide)

theorem posterLoop_eq (cands : List (Option String)) :
    posterLoop cands =
      match cands.findSome? usableRaw with
      | none => FALLBACK_POSTER_URL
      | some raw => deriveUrl raw := by
  induction cands with
  | nil => rfl
  | cons c rest ih =>
    rw [List.findSome?_cons]
    cases h : usableRaw c <;> simp [posterLoop, h, ih]

/-- Claim C10 (amended): the function `getMoviePoster` is total and never returns the
empty string: a `null`/non-object argument yields the fallback URL; when
no candidate field is usable it yields the fallback URL; and when some
candidate is usable it yields the URL derived from the *first* usable
candidate (which may coincidentally equal the fallback URL, so "fallback
exactly when no candidate is usable" holds at the level of which branch
runs, not of string equality). -/
theorem getMoviePoster_spec :
    getMoviePoster none = FALLBACK_POSTER_URL ∧
    (∀ m : MovieObj, firstUsable m = none →
      getMoviePoster (some m) = FALLBACK_POSTER_URL) ∧
    (∀ (m : MovieObj) (raw : String), firstUsable m = some raw →
      getMoviePoster (some m) = deriveUrl raw) ∧
    (∀ x : Option MovieObj, getMoviePoster x ≠ "") := by
  refine ⟨rfl, ?_, ?_, ?_⟩
  · intro m h
    show posterLoop (candidatesOf m) = _
    rw [posterLoop_eq]
    rw [firstUsable] at h
    rw [h]
  · intro m raw h
    show posterLoop (candidatesOf m) = _
    rw [posterLoop_eq]
    rw [firstUsable] at h
    rw [h]
  · intro x
    cases x with
    | none => decide
    | some m =>
      show posterLoop (candidatesOf m) ≠ ""
      rw [posterLoop_eq]
      cases h : (candidatesOf m).findSome? usableRaw with
      | none => decide
      | some raw => exact deriveUrl_ne_empty raw

/-- Counterexample for C10 as stated: a movie whose `poster_path` is the
literal fallback URL has a usable first candidate, yet the returned value
equals the fallback URL — so "returns the fallback poster URL exactly when
no candidate field is usable" fails as a biconditional about the returned
string. -/
theorem getMoviePoster_counterexample :
    getMoviePoster (some { poster_path := some FALLBACK_POSTER_URL }) =
      FALLBACK_POSTER_URL ∧
    firstUsable { poster_path := some FALLBACK_POSTER_URL } ≠ none := by
  decide

/-- Witness for C10 at concrete inputs. -/
theorem getMoviePoster_spec_witness :
    getMoviePoster (some { poster_path := some "/abc.jpg" }) =
      deriveUrl "/abc.jpg" ∧
    getMoviePoster (some ({} : MovieObj)) = FALLBACK_POSTER_URL :=
  ⟨getMoviePoster_spec.2.2.1 _ "/abc.jpg" (by decide),
    getMoviePoster_spec.2.1 _ (by decide)⟩

/-! ## C1: stale completions -/

theorem mem_abortOpt_of_mem {t : Nat} {c : Option Nat} {ab : List Nat}
    (h : t ∈ ab) : t ∈ abortOpt c ab := by
  cases c <;> simp [abortOpt, h]

theorem mem_abortOpt_of_eq {c : Option Nat} {t : Nat} {ab : List Nat}
    (h : c = some t) : t ∈ abortOpt c ab := by
  subst h
  simp [abortOpt]

theorem schNetOk_resume (env : Env) (s : AppState) (tk : ATask)
    (h : schNetOk s) : schNetOk (resumeTask env s tk) := by
  intro tok q key hmem
  cases tk with
  | sugNet tok' q' key' =>
    simp only [resumeTask] at hmem ⊢
    split_ifs at hmem ⊢ <;> exact h tok q key hmem
  | schNet tok' q' key' =>
    simp only [resumeTask] at hmem ⊢
    split_ifs at hmem ⊢ with hab hemp
    · exact h tok q key hmem
    · exact h tok q key hmem
    · rcases List.mem_append.mp hmem with hm | hm
      · exact h tok q key hm
      · simp at hm
  | schDisplay tok' q' results =>
    simp only [resumeTask] at hmem ⊢
    rcases List.mem_append.mp hmem with hm | hm
    · rcases h tok q key hm with hc | hc
      · exact Or.inl hc
      · exact Or.inr (mem_abortOpt_of_mem hc)
    · simp at hm
  | recNet tok' seed =>
    simp only [resumeTask] at hmem ⊢
    split_ifs at hmem ⊢ with hab hemp
    · exact h tok q key hmem
    · exact h tok q key hmem
    · rcases List.mem_append.mp hmem with hm | hm
      · exact h tok q key hm
      · simp at hm
  | recDisplay recs =>
    simp only [resumeTask] at hmem ⊢
    exact h tok q key hmem

theorem schNetOk_step (env : Env) (s : AppState) (a : Act)
    (h : schNetOk s) : schNetOk (step env s a) := by
  cases a with
  | sug q =>
    intro tok qq kk hmem
    show (stepSug env s q).schCtl = some tok ∨ tok ∈ (stepSug env s q).abortedT
    have hmem' : ATask.schNet tok qq kk ∈ (stepSug env s q).tasks := hmem
    rw [stepSug] at hmem' ⊢
    split_ifs at hmem' ⊢ with h1 h2
    · exact h _ _ _ hmem'
    · exact h _ _ _ hmem'
    · cases hcl : cacheLookup s.sugCache
          (suggestionCacheKey q env.langs env.safe) s.now with
      | some v =>
        simp only [hcl] at hmem' ⊢
        exact h _ _ _ hmem'
      | none =>
        simp only [hcl] at hmem' ⊢
        rcases List.mem_append.mp hmem' with hm | hm
        · rcases h _ _ _ hm with hc | hc
          · exact Or.inl hc
          · exact Or.inr (mem_abortOpt_of_mem hc)
        · simp at hm
  | sch q =>
    intro tok qq kk hmem
    show (stepSch env s q).schCtl = some tok ∨ tok ∈ (stepSch env s q).abortedT
    have hmem' : ATask.schNet tok qq kk ∈ (stepSch env s q).tasks := hmem
    rw [stepSch] at hmem' ⊢
    split_ifs at hmem' ⊢ with h1
    · exact h _ _ _ hmem'
    · have hold : ATask.schNet tok qq kk ∈ s.tasks →
          (some s.nextTok : Option Nat) = some tok ∨
            tok ∈ abortOpt s.recCtl (abortOpt s.schCtl s.abortedT) := by
        intro hm
        rcases h _ _ _ hm with hc | hc
        · exact Or.inr (mem_abortOpt_of_mem (mem_abortOpt_of_eq hc))
        · exact Or.inr (mem_abortOpt_of_mem (mem_abortOpt_of_mem hc))
      cases hcl : cacheLookup s.schCache
          (searchCacheKey q env.langs env.safe) s.now with
      | some results =>
        simp only [hcl] at hmem' ⊢
        split_ifs at hmem' ⊢
        · exact hold hmem'
        · rcases List.mem_append.mp hmem' with hm | hm
          · exact hold hm
          · simp at hm
      | none =>
        simp only [hcl] at hmem' ⊢
        rcases List.mem_append.mp hmem' with hm | hm
        · exact hold hm
        · simp only [List.mem_singleton] at hm
          injection hm with h1 h2 h3
          subst h1
          exact Or.inl rfl
  | tick d =>
    intro tok qq kk hmem
    exact h tok qq kk hmem
  | deliver i =>
    show schNetOk (match s.tasks[i]? with
      | none => s
      | some tk => resumeTask env { s with tasks := s.tasks.eraseIdx i } tk)
    cases htk : s.tasks[i]? with
    | none => exact h
    | some tk =>
      apply schNetOk_resume
      intro tok qq kk hmem
      exact h tok qq kk (List.eraseIdx_subset _ _ hmem)

theorem schNetOk_foldl (env : Env) (acts : List Act) :
    ∀ s, schNetOk s → schNetOk (acts.foldl (step env) s) := by
  induction acts with
  | nil => intro s hs; exact hs
  | cons a rest ih => intro s hs; exact ih _ (schNetOk_step env s a hs)

theorem schNetOk_run (env : Env) (acts : List Act) :
    schNetOk (run env acts) := by
  apply schNetOk_foldl
  intro tok q key hmem
  simp [initState] at hmem

/-- Claim C1 (amended): on the search channel the claimed suppression
holds: in every execution, a search network completion delivered after a
newer search has started (so the channel has moved off the completion's
token) changes no observable state — no cache write, no history write, no
view change.  This is because every `searchMovies` start aborts the
channel's current controller (main.js:1038-1045) and an aborted search
fetch rejects into a catch block with no state effects (main.js:1112-1116).
On the **suggestions** channel the claimed suppression fails (see the
counterexample): a newer suggestion request served by the local list or
the cache does not abort the in-flight request (main.js:885-903 return
before the abort at main.js:904-908), so the stale completion later
overwrites both the displayed suggestions and the suggestion cache; and an
aborted suggestion completion still replaces the displayed suggestions
with the empty "no movies found" list (main.js:933-937). -/
theorem staleSearch_spec (env : Env) (acts : List Act) (i tok : Nat)
    (q key : String)
    (h1 : (run env acts).tasks[i]? = some (.schNet tok q key))
    (h2 : (run env acts).schCtl ≠ some tok) :
    observables (step env (run env acts) (.deliver i)) =
      observables (run env acts) := by
  have hmem : ATask.schNet tok q key ∈ (run env acts).tasks :=
    List.mem_iff_getElem?.mpr ⟨i, h1⟩
  have hab : tok ∈ (run env acts).abortedT :=
    (schNetOk_run env acts tok q key hmem).resolve_left h2
  simp only [step, h1, resumeTask]
  rw [if_pos hab]
  rfl

/-- Counterexample for C1 as stated: start a suggestion query
`"inception"` (which suspends at the network), then a suggestion query
`"matrix77"` (which aborts the first token and suspends), deliver the
newer completion (displaying its results and writing the cache), and then
deliver the stale `"inception"` completion.  The stale completion's token
is no longer the channel's current token, yet its delivery changes the
observable state: the catch block of main.js:933-937 replaces the
displayed suggestion list with the empty list. -/
theorem staleCompletion_counterexample : ¬ c1ClaimStatement := by
  intro h
  have hx := h envStale [.sug "inception", .sug "matrix77", .deliver 1] 0
    (ATask.sugNet 0 "inception" "inception|en|1") 0 (some 1)
    (by decide) (by decide) (by decide)
  exact absurd hx (by decide)

/-- Witness for C1 (amended): a stale `"matrix"` search completion
delivered after a newer `"inception"` search has started is a no-op on all
observable state. -/
theorem staleSearch_spec_witness :
    observables (step envStale
        (run envStale [.sch "matrix", .sch "inception"]) (.deliver 0)) =
      observables (run envStale [.sch "matrix", .sch "inception"]) :=
  staleSearch_spec envStale [.sch "matrix", .sch "inception"] 0 0 "matrix"
    "query=matrix&safe_mode=true&languages=en&limit=10"
    (by decide) (by decide)

/-! ## C7: cache-key determinism and injectivity -/

theorem charToNatInj {x y : Char} (h : x.toNat = y.toNat) : x = y :=
  Char.ext (UInt32.ext h)

/-- Splitting a character list at a separator that occurs in neither
prefix is unambiguous. -/
theorem splitUniq (sep : Char) :
    ∀ (a a' b b' : List Char), sep ∉ a → sep ∉ a' →
      a ++ sep :: b = a' ++ sep :: b' → a = a' ∧ b = b' := by
  intro a
  induction a with
  | nil =>
    intro a' b b' _ ha' heq
    cases a' with
    | nil => simpa using heq
    | cons c rest =>
      exfalso
      simp only [List.nil_append, List.cons_append, List.cons.injEq] at heq
      exact ha' (heq.1 ▸ List.mem_cons_self c rest)
  | cons c rest ih =>
    intro a' b b' ha ha' heq
    cases a' with
    | nil =>
      exfalso
      simp only [List.cons_append, List.nil_append, List.cons.injEq] at heq
      exact ha (heq.1.symm ▸ List.mem_cons_self c rest)
    | cons c' rest' =>
      simp only [List.cons_append, List.cons.injEq] at heq
      obtain ⟨rfl, heq2⟩ := heq
      have hna : sep ∉ rest := fun hm => ha (List.mem_cons_of_mem _ hm)
      have hna' : sep ∉ rest' := fun hm => ha' (List.mem_cons_of_mem _ hm)
      obtain ⟨h1, h2⟩ := ih rest' b b' hna hna' heq2
      exact ⟨by rw [h1], h2⟩

/-- The serialization `join(',')` introduces no character other than `','` and the codes'
own characters. -/
theorem joinComma_sep_free (c : Char) (hc : c ≠ ',') :
    ∀ l : List String, (∀ s ∈ l, c ∉ s.data) → c ∉ (joinComma l).data := by
  intro l
  induction l with
  | nil => intro _; simp [joinComma]
  | cons s rest ih =>
    intro h
    cases rest with
    | nil => simpa [joinComma] using h s (List.mem_cons_self _ _)
    | cons s2 rest2 =>
      intro hmem
      rw [joinComma, String.data_append, String.data_append] at hmem
      rcases List.mem_append.mp hmem with hm | hm
      · rcases List.mem_append.mp hm with hm2 | hm2
        · exact h s (List.mem_cons_self _ _) hm2
        · have : c = ',' := by simpa using hm2
          exact hc this
      · exact ih (fun t ht => h t (List.mem_cons_of_mem _ ht)) hm

/-- A comma-free string never equals anything of the form
`prefix ++ "," ++ suffix`. -/
theorem commaFree_ne_split (s s2 J : String) (hs : ',' ∉ s.data) :
    s ≠ s2 ++ "," ++ J := by
  intro heq
  apply hs
  have hd := congrArg String.data heq
  rw [String.data_append, String.data_append] at hd
  rw [hd]
  refine List.mem_append.mpr (Or.inl (List.mem_append.mpr (Or.inr ?_)))
  simp

/-- The serialization `join(',')` is injective on lists of non-empty, comma-free codes. -/
theorem joinComma_inj :
    ∀ l1 l2 : List String,
      (∀ s ∈ l1, s ≠ "" ∧ ',' ∉ s.data) →
      (∀ s ∈ l2, s ≠ "" ∧ ',' ∉ s.data) →
      joinComma l1 = joinComma l2 → l1 = l2 := by
  intro l1
  induction l1 with
  | nil =>
    intro l2 _ h2 heq
    cases l2 with
    | nil => rfl
    | cons s rest =>
      exfalso
      cases rest with
      | nil => exact (h2 s (List.mem_cons_self _ _)).1 heq.symm
      | cons s2 r2 =>
        rw [joinComma, joinComma] at heq
        have hd := congrArg String.data heq
        rw [String.data_append, String.data_append] at hd
        simp at hd
  | cons s rest ih =>
    intro l2 h1 h2 heq
    cases l2 with
    | nil =>
      exfalso
      cases rest with
      | nil => exact (h1 s (List.mem_cons_self _ _)).1 heq
      | cons s2 r2 =>
        rw [joinComma, joinComma] at heq
        have hd := congrArg String.data heq
        rw [String.data_append, String.data_append] at hd
        simp at hd
    | cons s' rest' =>
      cases rest with
      | nil =>
        cases rest' with
        | nil =>
          rw [joinComma, joinComma] at heq
          rw [heq]
        | cons t2 r2 =>
          exfalso
          rw [joinComma, joinComma] at heq
          exact commaFree_ne_split s s' (joinComma (t2 :: r2))
            (h1 s (List.mem_cons_self _ _)).2 heq
      | cons t r =>
        cases rest' with
        | nil =>
          exfalso
          rw [joinComma, joinComma] at heq
          exact commaFree_ne_split s' s (joinComma (t :: r))
            (h2 s' (List.mem_cons_self _ _)).2 heq.symm
        | cons t2 r2 =>
          rw [joinComma, joinComma] at heq
          have hd := congrArg String.data heq
          rw [String.data_append, String.data_append,
            String.data_append, String.data_append] at hd
          have hd' : s.data ++ ',' :: (joinComma (t :: r)).data =
              s'.data ++ ',' :: (joinComma (t2 :: r2)).data := by
            simpa [List.append_assoc] using hd
          obtain ⟨hs, hj⟩ := splitUniq ',' s.data s'.data _ _
            (h1 s (List.mem_cons_self _ _)).2
            (h2 s' (List.mem_cons_self _ _)).2 hd'
          have hs' : s = s' := strDataInj hs
          have hj' : joinComma (t :: r) = joinComma (t2 :: r2) :=
            strDataInj hj
          rw [hs', ih (t2 :: r2)
            (fun x hx => h1 x (List.mem_cons_of_mem _ hx))
            (fun x hx => h2 x (List.mem_cons_of_mem _ hx)) hj']

/-- Injectivity of the suggestion-channel key for well-formed language
codes (arbitrary query text). -/
theorem suggestionKey_inj (q1 q2 : String) (l1 l2 : List String)
    (b1 b2 : Bool)
    (h1 : ∀ s ∈ l1, wfCode s) (h2 : ∀ s ∈ l2, wfCode s)
    (heq : suggestionCacheKey q1 l1 b1 = suggestionCacheKey q2 l2 b2) :
    q1 = q2 ∧ l1 = l2 ∧ b1 = b2 := by
  have hpipe : ("|" : String).data = ['|'] := rfl
  have hrev : ∀ (q : String) (l : List String) (b : Bool),
      (suggestionCacheKey q l b).data.reverse =
        (if b then '1' else '0') :: '|' ::
          ((joinComma l).data.reverse ++ '|' :: q.data.reverse) := by
    intro q l b
    show ((q ++ "|" ++ joinComma l ++ "|" ++
      (if b then "1" else "0")).data).reverse = _
    rw [String.data_append, String.data_append, String.data_append,
      String.data_append]
    cases b <;>
      simp [List.reverse_append, hpipe, List.append_assoc,
        show ("1" : String).data = ['1'] from rfl,
        show ("0" : String).data = ['0'] from rfl]
  have hd := congrArg (fun s : String => s.data.reverse) heq
  simp only at hd
  rw [hrev, hrev] at hd
  injection hd with hf hd1
  injection hd1 with _ hd2
  have hb : b1 = b2 := by
    cases b1 <;> cases b2 <;> first | rfl | exact absurd hf (by decide)
  have hp1 : '|' ∉ (joinComma l1).data.reverse := by
    rw [List.mem_reverse]
    exact joinComma_sep_free '|' (by decide) l1 (fun s hs => (h1 s hs).2.2)
  have hp2 : '|' ∉ (joinComma l2).data.reverse := by
    rw [List.mem_reverse]
    exact joinComma_sep_free '|' (by decide) l2 (fun s hs => (h2 s hs).2.2)
  obtain ⟨hJr, hqr⟩ := splitUniq '|' _ _ _ _ hp1 hp2 hd2
  have hJ : joinComma l1 = joinComma l2 := strDataInj (by
    have := congrArg List.reverse hJr
    simpa using this)
  have hq : q1 = q2 := strDataInj (by
    have := congrArg List.reverse hqr
    simpa using this)
  have hl : l1 = l2 := joinComma_inj l1 l2
    (fun s hs => ⟨(h1 s hs).1, (h1 s hs).2.1⟩)
    (fun s hs => ⟨(h2 s hs).1, (h2 s hs).2.1⟩) hJ
  exact ⟨hq, hl, hb⟩

theorem urlencodeChar_ne_nil (c : Char) : urlencodeChar c ≠ [] := by
  unfold urlencodeChar
  split_ifs <;> simp

theorem hexDigit_ne_amp : ∀ n < 16, hexDigit n ≠ '&' := by decide

theorem hexDigit_inj : ∀ m < 16, ∀ n < 16, hexDigit m = hexDigit n → m = n := by
  decide

/-- The serializer never emits a raw `'&'` (for code points below 128,
where `%HH` has a single well-formed byte). -/
theorem amp_notMem_urlencodeChar (c : Char) (hc : c.toNat < 128) :
    '&' ∉ urlencodeChar c := by
  unfold urlencodeChar
  split_ifs with hsafe hspace
  · simp only [List.mem_singleton]
    intro hcc
    rw [← hcc] at hsafe
    exact absurd hsafe (by decide)
  · simp
  · have hhi : c.toNat / 16 < 16 := by omega
    have hlo : c.toNat % 16 < 16 := Nat.mod_lt _ (by norm_num)
    simp only [List.mem_cons, List.not_mem_nil, or_false]
    push_neg
    exact ⟨by decide, fun h => hexDigit_ne_amp _ hhi h.symm,
      fun h => hexDigit_ne_amp _ hlo h.symm⟩

theorem amp_notMem_urlencode (s : String) (hs : asciiStr s) :
    '&' ∉ (urlencode s).data := by
  intro hmem
  have hmem' : '&' ∈ (s.data.map urlencodeChar).flatten := hmem
  rw [List.mem_flatten] at hmem'
  obtain ⟨chunk, hchunk, hm⟩ := hmem'
  rw [List.mem_map] at hchunk
  obtain ⟨c, hc, rfl⟩ := hchunk
  exact amp_notMem_urlencodeChar c (hs c hc) hm

/-- The serializer's per-character chunks form a prefix code on code
points below 128. -/
theorem urlencodeChar_append_inj (x y : Char)
    (hx : x.toNat < 128) (hy : y.toNat < 128) (a b : List Char)
    (h : urlencodeChar x ++ a = urlencodeChar y ++ b) : x = y ∧ a = b := by
  unfold urlencodeChar at h
  by_cases hsx : safeChar x <;> by_cases hsy : safeChar y
  · simp only [hsx, hsy, if_true, List.cons_append, List.nil_append,
      List.cons.injEq] at h
    exact ⟨h.1, h.2⟩
  · rw [if_pos hsx, if_neg hsy] at h
    by_cases hspy : y = ' '
    · rw [if_pos hspy] at h
      simp only [List.cons_append, List.nil_append, List.cons.injEq] at h
      rw [h.1] at hsx
      exact absurd hsx (by decide)
    · rw [if_neg hspy] at h
      simp only [List.cons_append, List.nil_append, List.cons.injEq] at h
      rw [h.1] at hsx
      exact absurd hsx (by decide)
  · rw [if_neg hsx, if_pos hsy] at h
    by_cases hspx : x = ' '
    · rw [if_pos hspx] at h
      simp only [List.cons_append, List.nil_append, List.cons.injEq] at h
      rw [← h.1] at hsy
      exact absurd hsy (by decide)
    · rw [if_neg hspx] at h
      simp only [List.cons_append, List.nil_append, List.cons.injEq] at h
      rw [← h.1] at hsy
      exact absurd hsy (by decide)
  · rw [if_neg hsx, if_neg hsy] at h
    by_cases hspx : x = ' ' <;> by_cases hspy : y = ' '
    · rw [if_pos hspx, if_pos hspy] at h
      simp only [List.cons_append, List.nil_append, List.cons.injEq] at h
      exact ⟨hspx.trans hspy.symm, h.2⟩
    · rw [if_pos hspx, if_neg hspy] at h
      simp only [List.cons_append, List.nil_append, List.cons.injEq] at h
      exact absurd h.1 (by decide)
    · rw [if_neg hspx, if_pos hspy] at h
      simp only [List.cons_append, List.nil_append, List.cons.injEq] at h
      exact absurd h.1 (by decide)
    · rw [if_neg hspx, if_neg hspy] at h
      simp only [List.cons_append, List.nil_append, List.cons.injEq] at h
      obtain ⟨_, hhi, hlo, hab⟩ := h
      have e1 : x.toNat / 16 = y.toNat / 16 :=
        hexDigit_inj _ (by omega) _ (by omega) hhi
      have e2 : x.toNat % 16 = y.toNat % 16 :=
        hexDigit_inj _ (Nat.mod_lt _ (by norm_num)) _
          (Nat.mod_lt _ (by norm_num)) hlo
      have : x.toNat = y.toNat := by omega
      exact ⟨charToNatInj this, hab⟩

theorem urlencode_flatten_inj :
    ∀ xs ys : List Char, (∀ c ∈ xs, c.toNat < 128) →
      (∀ c ∈ ys, c.toNat < 128) →
      (xs.map urlencodeChar).flatten = (ys.map urlencodeChar).flatten →
      xs = ys := by
  intro xs
  induction xs with
  | nil =>
    intro ys _ _ heq
    cases ys with
    | nil => rfl
    | cons y ys' =>
      exfalso
      simp only [List.map_nil, List.flatten_nil, List.map_cons,
        List.flatten_cons] at heq
      cases hcy : urlencodeChar y with
      | nil => exact urlencodeChar_ne_nil y hcy
      | cons c cs =>
        rw [hcy] at heq
        simp at heq
  | cons x xs' ih =>
    intro ys hx hy heq
    cases ys with
    | nil =>
      exfalso
      simp only [List.map_nil, List.flatten_nil, List.map_cons,
        List.flatten_cons] at heq
      cases hcx : urlencodeChar x with
      | nil => exact urlencodeChar_ne_nil x hcx
      | cons c cs =>
        rw [hcx] at heq
        simp at heq
    | cons y ys' =>
      simp only [List.map_cons, List.flatten_cons] at heq
      obtain ⟨hxy, hrest⟩ := urlencodeChar_append_inj x y
        (hx x (List.mem_cons_self _ _)) (hy y (List.mem_cons_self _ _))
        _ _ heq
      subst hxy
      rw [ih ys' (fun c hc => hx c (List.mem_cons_of_mem _ hc))
        (fun c hc => hy c (List.mem_cons_of_mem _ hc)) hrest]

theorem urlencode_inj (s1 s2 : String) (h1 : asciiStr s1) (h2 : asciiStr s2)
    (heq : urlencode s1 = urlencode s2) : s1 = s2 := by
  apply strDataInj
  exact urlencode_flatten_inj s1.data s2.data h1 h2 (congrArg String.data heq)

/-- The search-channel key always decomposes as
`"query=" ++ encoded-query ++ '&' ++ tail`. -/
theorem searchKey_data (q : String) (l : List String) (b : Bool) :
    (searchCacheKey q l b).data =
      ("query=" : String).data ++ (urlencode q).data ++ '&' :: tailData b l := by
  have dASM : ("&safe_mode=true" : String).data =
      '&' :: ("safe_mode=true" : String).data := rfl
  have dALG : ("&languages=" : String).data =
      '&' :: ("languages=" : String).data := rfl
  have dALM : ("&limit=10" : String).data =
      '&' :: ("limit=10" : String).data := rfl
  cases b <;> cases l <;>
    simp [searchCacheKey, tailData, String.data_append,
      List.append_assoc, dASM, dALG, dALM]

theorem joinComma_ascii :
    ∀ l : List String, (∀ s ∈ l, asciiStr s) → asciiStr (joinComma l) := by
  intro l
  induction l with
  | nil => intro _ c hc; simp [joinComma] at hc
  | cons s rest ih =>
    intro h
    cases rest with
    | nil =>
      intro c hc
      exact h s (List.mem_cons_self _ _) c hc
    | cons s2 r2 =>
      intro c hc
      rw [joinComma, String.data_append, String.data_append] at hc
      rcases List.mem_append.mp hc with hm | hm
      · rcases List.mem_append.mp hm with hm2 | hm2
        · exact h s (List.mem_cons_self _ _) c hm2
        · have : c = ',' := by simpa using hm2
          subst this
          decide
      · exact ih (fun t ht => h t (List.mem_cons_of_mem _ ht)) c hm

/-- Injectivity of the search-channel key for ASCII queries and
well-formed ASCII language codes. -/
theorem searchKey_inj (q1 q2 : String) (l1 l2 : List String) (b1 b2 : Bool)
    (ha1 : asciiStr q1) (ha2 : asciiStr q2)
    (h1 : ∀ s ∈ l1, wfCode s ∧ asciiStr s)
    (h2 : ∀ s ∈ l2, wfCode s ∧ asciiStr s)
    (heq : searchCacheKey q1 l1 b1 = searchCacheKey q2 l2 b2) :
    q1 = q2 ∧ l1 = l2 ∧ b1 = b2 := by
  have hd := congrArg String.data heq
  rw [searchKey_data, searchKey_data, List.append_assoc,
    List.append_assoc] at hd
  have hd1 : (urlencode q1).data ++ '&' :: tailData b1 l1 =
      (urlencode q2).data ++ '&' :: tailData b2 l2 :=
    List.append_cancel_left hd
  obtain ⟨hEq, hT⟩ := splitUniq '&' _ _ _ _
    (amp_notMem_urlencode q1 ha1) (amp_notMem_urlencode q2 ha2) hd1
  have hq : q1 = q2 := urlencode_inj q1 q2 ha1 ha2 (strDataInj hEq)
  have hJinj : (urlencode (joinComma l1)).data =
      (urlencode (joinComma l2)).data → l1 = l2 := by
    intro hEJ
    have hJ : joinComma l1 = joinComma l2 :=
      urlencode_inj _ _
        (joinComma_ascii l1 (fun s hs => (h1 s hs).2))
        (joinComma_ascii l2 (fun s hs => (h2 s hs).2))
        (strDataInj hEJ)
    exact joinComma_inj l1 l2
      (fun s hs => ⟨(h1 s hs).1.1, (h1 s hs).1.2.1⟩)
      (fun s hs => ⟨(h2 s hs).1.1, (h2 s hs).1.2.1⟩) hJ
  have hampJ1 : '&' ∉ (urlencode (joinComma l1)).data :=
    amp_notMem_urlencode _ (joinComma_ascii l1 (fun s hs => (h1 s hs).2))
  have hampJ2 : '&' ∉ (urlencode (joinComma l2)).data :=
    amp_notMem_urlencode _ (joinComma_ascii l2 (fun s hs => (h2 s hs).2))
  have dLM : ("&limit=10" : String).data =
      '&' :: ("limit=10" : String).data := rfl
  refine ⟨hq, ?_⟩
  cases b1 <;> cases b2 <;> cases l1 <;> cases l2 <;>
    simp only [tailData, List.nil_append, List.append_assoc,
      List.cons_append, List.cons.injEq, List.nil_eq, List.append_nil,
      eq_self_iff_true, true_and] at hT <;>
    first
      | exact ⟨rfl, rfl⟩
      | exact absurd hT.1 (by decide)
      | (obtain ⟨hEJ, -⟩ := splitUniq '&' _ _ _ _ hampJ1 hampJ2 hT
         exact ⟨hJinj hEJ, rfl⟩)

/-- Claim C7 (amended): both cache keys are deterministic functions of
exactly (query text, language list, safe-mode flag): equal triples give
equal keys.  They are injective on triples whose language codes are
non-empty and contain neither `','` nor `'|'` (every code the client
offers satisfies this; for the search-channel key the strings are
additionally taken ASCII, where the urlencoded-serializer model is
exact). -/
theorem cacheKey_spec :
    (∀ (q1 q2 : String) (l1 l2 : List String) (b1 b2 : Bool),
      q1 = q2 → l1 = l2 → b1 = b2 →
      suggestionCacheKey q1 l1 b1 = suggestionCacheKey q2 l2 b2 ∧
      searchCacheKey q1 l1 b1 = searchCacheKey q2 l2 b2) ∧
    (∀ (q1 q2 : String) (l1 l2 : List String) (b1 b2 : Bool),
      (∀ s ∈ l1, wfCode s) → (∀ s ∈ l2, wfCode s) →
      suggestionCacheKey q1 l1 b1 = suggestionCacheKey q2 l2 b2 →
      q1 = q2 ∧ l1 = l2 ∧ b1 = b2) ∧
    (∀ (q1 q2 : String) (l1 l2 : List String) (b1 b2 : Bool),
      asciiStr q1 → asciiStr q2 →
      (∀ s ∈ l1, wfCode s ∧ asciiStr s) →
      (∀ s ∈ l2, wfCode s ∧ asciiStr s) →
      searchCacheKey q1 l1 b1 = searchCacheKey q2 l2 b2 →
      q1 = q2 ∧ l1 = l2 ∧ b1 = b2) := by
  refine ⟨?_, suggestionKey_inj, searchKey_inj⟩
  intro q1 q2 l1 l2 b1 b2 hq hl hb
  subst hq
  subst hl
  subst hb
  exact ⟨rfl, rfl⟩

/-- Counterexample for C7 as stated: over arbitrary parameter values the
suggestion-channel key is not injective — the distinct triples
`("a|b", ["c"], false)` and `("a", ["b|c"], false)` collide on the key
`"a|b|c|0"` (the key concatenates with `'|'` without escaping,
main.js:897). -/
theorem cacheKey_counterexample :
    suggestionCacheKey "a|b" ["c"] false =
      suggestionCacheKey "a" ["b|c"] false ∧
    ("a|b" : String) ≠ "a" := by decide

/-- Witness for C7 at a concrete well-formed triple. -/
theorem cacheKey_spec_witness :
    ("matrix" : String) = "matrix" ∧
    (["en", "hi"] : List String) = ["en", "hi"] ∧ (true : Bool) = true :=
  cacheKey_spec.2.2 "matrix" "matrix" ["en", "hi"] ["en", "hi"] true true
    (by decide) (by decide) (by decide) (by decide) rfl
